import Mathlib

/-! Context propagation into an outbound HTTP request (main.go)

A shallow embedding of `main.go`: every function of the file is a pure function
from an environment (what the Go libraries answer) to a `Run`, the list of
observable events in program order together with the way the call ended
(normal return or panic).

The functions of `main.go` are translated statement by statement.  The Go
libraries they call (`net/http`, `io`, `context`, `gin`) are not part of the
repository; their answers are fields of `Env`, and the few library behaviours
the claims are about are small models marked as such in their doc comments.
-/

namespace ContextPractice

/-! ## Library values -/

/-- Cause recorded by a cancellation signal once it has fired:
`context.Canceled` or `context.DeadlineExceeded`. -/
inductive Cause
  | canceled
  | deadlineExceeded
  deriving DecidableEq, Repr

/-- Error values the libraries hand back to `main.go`. -/
inductive GoError
  | context (c : Cause)
  | invalidMethod
  | nilContext
  | other (code : Nat)
  deriving DecidableEq, Repr

/-- Value carried by a panic: an `error` (every `panic(err)` of `main.go`) or the
message gin raises when a route is registered twice. -/
inductive PanicValue
  | err (e : GoError)
  | routeConflict
  deriving DecidableEq, Repr

/-- Way a call ends. -/
inductive Outcome
  | returned
  | panicked (v : PanicValue)
  deriving DecidableEq, Repr

/-- Observable events, in program order. -/
inductive Event
  | ctxCreated
  | ctxReleased
  | doCalled
  | roundTrip
  | bodyOpened
  | bodyClosed
  | printed (n : Nat)
  deriving DecidableEq, Repr

/-- Result of running a function: its events and how it ended. -/
structure Run where
  trace : List Event
  outcome : Outcome
  deriving DecidableEq, Repr

/-- Go `defer`: the deferred call runs when the surrounding function exits, on a
normal return and while a panic unwinds alike, so its event ends the trace and
the outcome is unchanged. -/
def Run.defer (ev : Event) (r : Run) : Run :=
  ⟨r.trace ++ [ev], r.outcome⟩

/-! ## Cancellation signals (`context.Context`) -/

/-- Modelled from the spec: the cancellation signal of section 3 (Go
`context.Context`, whose code is not under src/).  A signal carries an optional
explicit cancel time, and a derived signal carries its parent and its own
absolute deadline.  Times are nanoseconds on one clock.  `root` stands for every
signal without a deadline (`context.Background()` is `root none`; the context of
an inbound server request is a `root` that is cancelled when the client goes
away). -/
inductive Signal
  | root (cancelAt : Option Nat)
  | child (parent : Signal) (deadline : Nat) (cancelAt : Option Nat)
  deriving DecidableEq, Repr

/-- The earlier of two firings; the first argument wins a tie. -/
def earliest (a b : Option (Nat × Cause)) : Option (Nat × Cause) :=
  match a, b with
  | none, b => b
  | some x, none => some x
  | some (ta, ca), some (tb, cb) => if ta ≤ tb then some (ta, ca) else some (tb, cb)

/-- Modelled from the spec: when and why a signal fires (Go `ctx.Done()` and
`ctx.Err()`, not under src/).  "A child signal is cancelled whenever any ancestor
is cancelled or its own deadline elapses, whichever comes first"; an elapsed
deadline records `deadlineExceeded`, an explicit trigger records `canceled`, and a
child fired by its parent records the cause of the parent. -/
def Signal.fire : Signal → Option (Nat × Cause)
  | .root cancelAt => cancelAt.map (fun t => (t, Cause.canceled))
  | .child p d cancelAt =>
      earliest p.fire
        (earliest (some (d, Cause.deadlineExceeded)) (cancelAt.map (fun t => (t, Cause.canceled))))

/-- Modelled from the spec: the recorded cause at time `now` (Go `ctx.Err()`):
`none` while the signal has not fired. -/
def Signal.err (s : Signal) (now : Nat) : Option Cause :=
  match s.fire with
  | some (t, c) => if t ≤ now then some c else none
  | none => none

/-- Modelled from the spec: the effective deadline of a signal (Go
`ctx.Deadline()`): the earliest deadline on the path to the root. -/
def Signal.deadline : Signal → Option Nat
  | .root _ => none
  | .child p d _ =>
      match p.deadline with
      | none => some d
      | some dp => some (min dp d)

/-- Whether a signal was created without a parent. -/
def Signal.isRoot : Signal → Bool
  | .root _ => true
  | .child _ _ _ => false

/-- `context.Background()`: root signal, never cancelled, no deadline. -/
def Background : Signal := .root none

/-- `time.Millisecond` in nanoseconds. -/
def Millisecond : Nat := 1000000

/-- Modelled from the spec: signal derivation (Go `context.WithTimeout`, not under
src/): a child of `parent` whose own deadline is `now + timeout`, not yet
cancelled by its creator. -/
def WithTimeout (parent : Signal) (now timeout : Nat) : Signal :=
  .child parent (now + timeout) none

/-! ## Requests and the transport -/

/-- Request descriptor (`*http.Request`): attached signal, method, target address
and whether a body was supplied. -/
structure Request where
  ctx : Signal
  method : String
  url : String
  hasBody : Bool
  deriving DecidableEq, Repr

/-- Response body as a stream: the byte chunks successive `Read` calls deliver
and the error, if any, that ends the stream in place of end-of-file. -/
structure Body where
  chunks : List (List Nat)
  readErr : Option GoError
  deriving DecidableEq, Repr

/-- Answers of the world outside `main.go`. -/
structure Env where
  /-- Time at which the function under study is invoked. -/
  now : Nat
  /-- Whether `net/http` accepts a method name. -/
  validMethod : String → Bool
  /-- Error of `url.Parse` on a target address, if any. -/
  parseURL : String → Option GoError
  /-- What the transport answers once it is contacted for a request whose signal
  has not fired yet (the race against a later firing is inside this answer). -/
  roundTrip : Request → Except GoError Body

/-- The fixed target address of the demonstration. -/
def target : String := "https://golang.org/doc/gopher/frontpage.png"

/-- Modelled from the spec: request construction (Go
`http.NewRequestWithContext` with a nil body, not under src/).  "The descriptor
must specify a valid method and address", and a malformed one is rejected at
once.  The checks run in the order of the library: method (an empty one means
GET), nil context, address. -/
def NewRequestWithContext (env : Env) (ctx : Option Signal) (method url : String) :
    Except GoError Request :=
  let method := if method = "" then "GET" else method
  if env.validMethod method = false then .error .invalidMethod
  else
    match ctx with
    | none => .error .nilContext
    | some c =>
        match env.parseURL url with
        | some e => .error e
        | none => .ok ⟨c, method, url, false⟩

/-- Modelled from the spec: construction without a signal (Go `http.NewRequest`,
not under src/): "the signal may be absent (meaning never cancel)", so the
request carries `context.Background()`. -/
def NewRequest (env : Env) (method url : String) : Except GoError Request :=
  NewRequestWithContext env (some Background) method url

/-- Modelled from the spec: the executor of section 4.1 (Go `client.Do`, not
under src/).  A signal that has already fired makes the call fail with the
recorded cause before the transport is contacted; otherwise the transport is
contacted and answers with a response whose body is open, or with an error. -/
def clientDo (env : Env) (req : Request) : List Event × Except GoError Body :=
  match req.ctx.err env.now with
  | some c => ([.doCalled], .error (.context c))
  | none =>
      match env.roundTrip req with
      | .error e => ([.doCalled, .roundTrip], .error e)
      | .ok body => ([.doCalled, .roundTrip, .bodyOpened], .ok body)

/-- The loop of `io.ReadAll`: append what each `Read` delivers. -/
def readLoop : List (List Nat) → List Nat → List Nat
  | [], acc => acc
  | c :: cs, acc => readLoop cs (acc ++ c)

/-- Modelled from the spec: "read the response body" (Go `io.ReadAll`, not under
src/): the bytes read until end-of-file or an error, and that error (`none` at
end-of-file). -/
def ReadAll (b : Body) : List Nat × Option GoError :=
  (readLoop b.chunks [], b.readErr)

/-! ## The functions of main.go -/

/-- Embedding of `fetchDataFromResponse` (main.go 13-29). -/
def fetchDataFromResponse (env : Env) (req : Request) : Run :=
  -- resp, err := client.Do(req)
  match clientDo env req with
  -- if err != nil: panic(err)
  | (evs, .error e) => ⟨evs, .panicked (.err e)⟩
  | (evs, .ok body) =>
      -- defer resp.Body.Close()
      Run.defer .bodyClosed <|
        -- imageData, err := io.ReadAll(resp.Body)
        match ReadAll body with
        -- if err != nil: panic(err)
        | (_, some e) => ⟨evs, .panicked (.err e)⟩
        -- fmt.Println("Image data:", len(imageData))
        | (imageData, none) => ⟨evs ++ [.printed imageData.length], .returned⟩

/-- Embedding of `RequestWithoutContext` (main.go 31-40). -/
def RequestWithoutContext (env : Env) : Run :=
  match NewRequest env "GET" target with
  | .error e => ⟨[], .panicked (.err e)⟩
  | .ok req => fetchDataFromResponse env req

/-- Embedding of `RequestWithTimeoutContext` (main.go 42-51); a Go interface
value may be nil, hence the `Option`. -/
def RequestWithTimeoutContext (env : Env) (ctx : Option Signal) : Run :=
  match NewRequestWithContext env ctx "GET" target with
  | .error e => ⟨[], .panicked (.err e)⟩
  | .ok req => fetchDataFromResponse env req

/-- Embedding of the first handler of `RequestUsingGin` (main.go 56-66), run for
an inbound request whose context is `reqCtx`. -/
def ginHandlerRequestContext (env : Env) (reqCtx : Signal) : Run :=
  match NewRequestWithContext env (some reqCtx) "GET" target with
  | .error e => ⟨[], .panicked (.err e)⟩
  | .ok req => fetchDataFromResponse env req

/-- The signal the second handler derives: `context.WithTimeout(parent, 100ms)`. -/
def timeoutContext (env : Env) (parent : Signal) : Signal :=
  WithTimeout parent env.now (100 * Millisecond)

/-- Embedding of the second handler of `RequestUsingGin` (main.go 69-81). -/
def ginHandlerTimeoutContext (env : Env) (reqCtx : Signal) : Run :=
  -- timeoutContext, cancel := context.WithTimeout(ctx.Request.Context(), 100ms)
  -- defer cancel()
  Run.defer .ctxReleased <|
    match NewRequestWithContext env (some (timeoutContext env reqCtx)) "GET" target with
    | .error e => ⟨[.ctxCreated], .panicked (.err e)⟩
    | .ok req =>
        let r := fetchDataFromResponse env req
        ⟨.ctxCreated :: r.trace, r.outcome⟩

/-! ## The gin router -/

/-- Handler values passed to `r.GET`: the two closures of `RequestUsingGin` and
the literal `nil` that follows each of them. -/
inductive Handler
  | viaRequestContext
  | viaTimeoutContext
  | nilHandler
  deriving DecidableEq, Repr

/-- One registered route. -/
structure Route where
  method : String
  path : String
  handlers : List Handler
  deriving DecidableEq, Repr

/-- Routes held by a gin engine (its default middleware plays no part in
registration and is left out). -/
structure Engine where
  routes : List Route
  deriving DecidableEq, Repr

/-- `gin.Default()`: an engine without routes. -/
def ginDefault : Engine := ⟨[]⟩

/-- Route registration of the gin library, `(*gin.Engine).GET` (gin is not under
src/ and the spec leaves routing out of scope): registers the handler chain for
the path; gin panics with "handlers are already registered for path" when the
method and path already hold handlers. -/
def Engine.GET (r : Engine) (path : String) (handlers : List Handler) :
    Except PanicValue Engine :=
  if r.routes.any (fun rt => rt.method == "GET" && rt.path == path) then
    .error .routeConflict
  else
    .ok ⟨r.routes ++ [⟨"GET", path, handlers⟩]⟩

/-- Embedding of `RequestUsingGin` (main.go 53-83): the engine as it stands when
the function exits, and how it exits.  The function never starts the server. -/
def RequestUsingGin : Engine × Outcome :=
  let r := ginDefault
  match r.GET "/hello" [.viaRequestContext, .nilHandler] with
  | .error p => (r, .panicked p)
  | .ok r1 =>
      match r1.GET "/hello" [.viaTimeoutContext, .nilHandler] with
      | .error p => (r1, .panicked p)
      | .ok r2 => (r2, .returned)

/-- Embedding of `main` (main.go 85-102). -/
def main (env : Env) : Run :=
  -- timeoutContext, cancel := context.WithTimeout(context.Background(), 100ms)
  -- defer cancel()
  Run.defer .ctxReleased <|
    let r := RequestWithTimeoutContext env (some (timeoutContext env Background))
    match r.outcome with
    | .panicked p => ⟨.ctxCreated :: r.trace, .panicked p⟩
    | .returned => ⟨.ctxCreated :: r.trace, RequestUsingGin.2⟩

/-! ## Observations on traces -/

/-- Byte counts printed during a run, in order. -/
def printedCounts : List Event → List Nat
  | [] => []
  | .printed n :: es => n :: printedCounts es
  | _ :: es => printedCounts es

/-- Number of bytes of a body: the sum of its chunk lengths. -/
def Body.size (b : Body) : Nat :=
  (b.chunks.map List.length).sum

/-- Live response bodies after a trace, starting from `n` live ones: an opened
body counts one up, a closed one counts one down. -/
def openBodies : List Event → Nat → Nat
  | [], n => n
  | .bodyOpened :: es, n => openBodies es (n + 1)
  | .bodyClosed :: es, n => openBodies es (n - 1)
  | _ :: es, n => openBodies es n

/-- Derived signals still attached after a trace, starting from `n`. -/
def liveSignals : List Event → Nat → Nat
  | [], n => n
  | .ctxCreated :: es, n => liveSignals es (n + 1)
  | .ctxReleased :: es, n => liveSignals es (n - 1)
  | _ :: es, n => liveSignals es n

/-! ## The race between the transport and the signal -/

/-- What the transport would do if nothing cancelled the request: the response
(or a transport error) arrives `latency` after the call, and reading the whole
body takes a further `readTime`. -/
structure Transport where
  latency : Nat
  readTime : Nat
  answer : Except GoError Body

/-- Natural completion time of a transport, measured from the call: the body has
been read, or the transport error has arrived. -/
def Transport.completion (tr : Transport) : Nat :=
  match tr.answer with
  | .error _ => tr.latency
  | .ok _ => tr.latency + tr.readTime

/-- Modelled from the spec: the race of sections 4.1 and 5 (inside Go
`client.Do` and the body reader, not under src/), on a logical clock.  "If the
underlying call completes first, its result is returned.  If the signal fires
first, the in-flight call is aborted" with the cause the signal recorded.  The
result is the time at which the call is over, and what the caller gets: an error
from `client.Do` when the signal fires before the response arrives, a body whose
read fails when it fires during the read (the bytes read so far are discarded by
the caller), the natural answer otherwise. -/
def race (now : Nat) (sig : Signal) (tr : Transport) : Nat × Except GoError Body :=
  match sig.fire with
  | none => (now + tr.completion, tr.answer)
  | some (t, c) =>
      if t < now + tr.latency then (max t now, .error (.context c))
      else
        match tr.answer with
        | .error e => (now + tr.latency, .error e)
        | .ok body =>
            if t < now + tr.latency + tr.readTime then
              (t, .ok ⟨body.chunks, some (.context c)⟩)
            else (now + tr.latency + tr.readTime, .ok body)

/-- The environment in which the transport answers every request by racing `tr`
against the signal of the request. -/
def withRace (env : Env) (tr : Transport) : Env :=
  { env with roundTrip := fun req => (race env.now req.ctx tr).2 }

/-! ## Sample environments -/

/-- A transport that answers every request with a three-byte body in two chunks. -/
def envOk : Env :=
  { now := 0
    validMethod := fun _ => true
    parseURL := fun _ => none
    roundTrip := fun _ => .ok ⟨[[137, 80], [78]], none⟩ }

/-- A transport that answers with an empty body. -/
def envEmpty : Env :=
  { envOk with roundTrip := fun _ => .ok ⟨[], none⟩ }

/-- The request `RequestWithoutContext` builds. -/
def reqBackground : Request := ⟨Background, "GET", target, false⟩

/-- An environment whose `net/http` rejects every method name. -/
def envInvalid : Env :=
  { envOk with validMethod := fun _ => false }

/-- The environment `envOk` observed 200ms after time zero. -/
def envLate : Env :=
  { envOk with now := 200 * Millisecond }

/-- A signal derived at time zero with a 100ms timeout from the background. -/
def expiredCtx : Signal := WithTimeout Background 0 (100 * Millisecond)

/-- A signal without deadline that was explicitly cancelled at time 5. -/
def cancelledCtx : Signal := .root (some 5)

/-- A transport that needs 500ms to deliver its response. -/
def slowTransport : Transport :=
  ⟨500 * Millisecond, 0, .ok ⟨[[137, 80], [78]], none⟩⟩

/-- The context of an inbound request whose client goes away after 30ms. -/
def earlyCancelCtx : Signal := .root (some (30 * Millisecond))

/-! ## Lemmas on the library models -/

theorem readLoop_length (cs : List (List Nat)) (acc : List Nat) :
    (readLoop cs acc).length = acc.length + (cs.map List.length).sum := by
  induction cs generalizing acc with
  | nil => simp [readLoop]
  | cons c cs ih => simp [readLoop, ih, Nat.add_assoc]

theorem ReadAll_length (b : Body) : (ReadAll b).1.length = b.size := by
  simp [ReadAll, Body.size, readLoop_length]

theorem ReadAll_err (b : Body) : (ReadAll b).2 = b.readErr := rfl

/-- A successful `client.Do` contacted the transport and opened one body. -/
theorem clientDo_ok {env : Env} {req : Request} {body : Body}
    (h : (clientDo env req).2 = .ok body) :
    clientDo env req = ([.doCalled, .roundTrip, .bodyOpened], .ok body) := by
  unfold clientDo at h ⊢
  cases hf : req.ctx.err env.now with
  | some c => simp [hf] at h
  | none =>
    cases hr : env.roundTrip req with
    | error e => simp [hf, hr] at h
    | ok b =>
      simp only [hf, hr] at h ⊢
      cases h
      rfl

/-- A failed `client.Do` opened no body. -/
theorem clientDo_error {env : Env} {req : Request} {e : GoError}
    (h : (clientDo env req).2 = .error e) :
    clientDo env req = ([.doCalled], .error e) ∨
      clientDo env req = ([.doCalled, .roundTrip], .error e) := by
  unfold clientDo at h ⊢
  cases hf : req.ctx.err env.now with
  | some c =>
    simp only [hf] at h ⊢
    cases h
    exact Or.inl rfl
  | none =>
    cases hr : env.roundTrip req with
    | error e2 =>
      simp only [hf, hr] at h ⊢
      cases h
      exact Or.inr rfl
    | ok b => simp [hf, hr] at h

theorem fetch_of_do_error {env : Env} {req : Request} {evs : List Event} {e : GoError}
    (h : clientDo env req = (evs, .error e)) :
    fetchDataFromResponse env req = ⟨evs, .panicked (.err e)⟩ := by
  simp [fetchDataFromResponse, h]

theorem fetch_of_read_error {env : Env} {req : Request} {evs : List Event} {body : Body}
    {e : GoError} (h : clientDo env req = (evs, .ok body)) (hr : body.readErr = some e) :
    fetchDataFromResponse env req = ⟨evs ++ [.bodyClosed], .panicked (.err e)⟩ := by
  simp [fetchDataFromResponse, h, ReadAll, hr, Run.defer]

theorem fetch_of_read_ok {env : Env} {req : Request} {evs : List Event} {body : Body}
    (h : clientDo env req = (evs, .ok body)) (hr : body.readErr = none) :
    fetchDataFromResponse env req =
      ⟨evs ++ [.printed body.size, .bodyClosed], .returned⟩ := by
  have hl := ReadAll_length body
  simp only [ReadAll] at hl
  simp [fetchDataFromResponse, h, ReadAll, hr, Run.defer, hl]

/-- The four ways `fetchDataFromResponse` can run, with the full trace of each. -/
theorem fetch_cases (env : Env) (req : Request) :
    (∃ e, clientDo env req = ([.doCalled], .error e) ∧
        fetchDataFromResponse env req = ⟨[.doCalled], .panicked (.err e)⟩) ∨
    (∃ e, clientDo env req = ([.doCalled, .roundTrip], .error e) ∧
        fetchDataFromResponse env req = ⟨[.doCalled, .roundTrip], .panicked (.err e)⟩) ∨
    (∃ body e, clientDo env req = ([.doCalled, .roundTrip, .bodyOpened], .ok body) ∧
        body.readErr = some e ∧
        fetchDataFromResponse env req =
          ⟨[.doCalled, .roundTrip, .bodyOpened, .bodyClosed], .panicked (.err e)⟩) ∨
    (∃ body, clientDo env req = ([.doCalled, .roundTrip, .bodyOpened], .ok body) ∧
        body.readErr = none ∧
        fetchDataFromResponse env req =
          ⟨[.doCalled, .roundTrip, .bodyOpened, .printed body.size, .bodyClosed], .returned⟩) := by
  cases hres : (clientDo env req).2 with
  | error e =>
    rcases clientDo_error hres with h | h
    · exact Or.inl ⟨e, h, fetch_of_do_error h⟩
    · exact Or.inr (Or.inl ⟨e, h, fetch_of_do_error h⟩)
  | ok body =>
    have h := clientDo_ok hres
    cases hr : body.readErr with
    | some e =>
      exact Or.inr (Or.inr (Or.inl ⟨body, e, h, hr, by rw [fetch_of_read_error h hr]; rfl⟩))
    | none =>
      exact Or.inr (Or.inr (Or.inr ⟨body, h, hr, by rw [fetch_of_read_ok h hr]; rfl⟩))

/-- `fetchDataFromResponse` neither derives nor releases a signal. -/
theorem fetch_trace_no_ctx (env : Env) (req : Request) :
    Event.ctxCreated ∉ (fetchDataFromResponse env req).trace ∧
      Event.ctxReleased ∉ (fetchDataFromResponse env req).trace := by
  rcases fetch_cases env req with ⟨e, _, hf⟩ | ⟨e, _, hf⟩ | ⟨body, e, _, _, hf⟩ |
    ⟨body, _, _, hf⟩ <;> rw [hf] <;> simp

/-- Request construction for the fixed descriptor either fails or yields the GET
request for the fixed target with the given signal and no body. -/
theorem newRequest_cases (env : Env) (ctx : Option Signal) :
    (∃ e, NewRequestWithContext env ctx "GET" target = .error e) ∨
    (∃ c, ctx = some c ∧
      NewRequestWithContext env ctx "GET" target = .ok ⟨c, "GET", target, false⟩) := by
  unfold NewRequestWithContext
  by_cases hm : env.validMethod "GET" = false
  · exact Or.inl ⟨.invalidMethod, by simp [hm]⟩
  · cases ctx with
    | none => exact Or.inl ⟨.nilContext, by simp [hm]⟩
    | some c =>
      cases hu : env.parseURL target with
      | some e => exact Or.inl ⟨e, by simp [hm, hu]⟩
      | none => exact Or.inr ⟨c, rfl, by simp [hm, hu]⟩

/-- Request construction succeeds when the method is accepted and the address
parses. -/
theorem newRequest_ok (env : Env) (c : Signal) (hm : env.validMethod "GET" = true)
    (hu : env.parseURL target = none) :
    NewRequestWithContext env (some c) "GET" target = .ok ⟨c, "GET", target, false⟩ := by
  simp [NewRequestWithContext, hm, hu]

theorem RequestWithTimeoutContext_trace_no_ctx (env : Env) (ctx : Option Signal) :
    Event.ctxCreated ∉ (RequestWithTimeoutContext env ctx).trace ∧
      Event.ctxReleased ∉ (RequestWithTimeoutContext env ctx).trace := by
  unfold RequestWithTimeoutContext
  rcases newRequest_cases env ctx with ⟨e, h⟩ | ⟨c, _, h⟩
  · rw [h]; simp
  · rw [h]; exact fetch_trace_no_ctx env _

/-- The second gin handler runs the body of `RequestWithTimeoutContext` on the
derived signal, between deriving it and releasing it. -/
theorem ginHandlerTimeoutContext_eq (env : Env) (reqCtx : Signal) :
    ginHandlerTimeoutContext env reqCtx =
      ⟨.ctxCreated ::
          ((RequestWithTimeoutContext env (some (timeoutContext env reqCtx))).trace ++
            [.ctxReleased]),
        (RequestWithTimeoutContext env (some (timeoutContext env reqCtx))).outcome⟩ := by
  unfold ginHandlerTimeoutContext RequestWithTimeoutContext
  rcases newRequest_cases env (some (timeoutContext env reqCtx)) with ⟨e, h⟩ | ⟨c, _, h⟩ <;>
    rw [h] <;> simp [Run.defer]

theorem main_trace (env : Env) :
    (main env).trace =
      .ctxCreated ::
        ((RequestWithTimeoutContext env (some (timeoutContext env Background))).trace ++
          [.ctxReleased]) := by
  unfold main
  cases h : (RequestWithTimeoutContext env (some (timeoutContext env Background))).outcome <;>
    simp [Run.defer, h]

theorem liveSignals_append_of_no_ctx (mid rest : List Event) (n : Nat)
    (h1 : Event.ctxCreated ∉ mid) (h2 : Event.ctxReleased ∉ mid) :
    liveSignals (mid ++ rest) n = liveSignals rest n := by
  induction mid with
  | nil => rfl
  | cons ev mid ih =>
    have h1' : Event.ctxCreated ∉ mid := fun h => h1 (List.mem_cons_of_mem _ h)
    have h2' : Event.ctxReleased ∉ mid := fun h => h2 (List.mem_cons_of_mem _ h)
    cases ev with
    | ctxCreated => exact absurd (List.mem_cons_self _ _) h1
    | ctxReleased => exact absurd (List.mem_cons_self _ _) h2
    | doCalled => simpa [liveSignals] using ih h1' h2'
    | roundTrip => simpa [liveSignals] using ih h1' h2'
    | bodyOpened => simpa [liveSignals] using ih h1' h2'
    | bodyClosed => simpa [liveSignals] using ih h1' h2'
    | printed k => simpa [liveSignals] using ih h1' h2'

theorem earliest_le_left (a b : Option (Nat × Cause)) (t : Nat) (c : Cause)
    (h : a = some (t, c)) : ∃ t2 c2, earliest a b = some (t2, c2) ∧ t2 ≤ t := by
  subst h
  cases b with
  | none => exact ⟨t, c, rfl, Nat.le_refl t⟩
  | some y =>
    obtain ⟨tb, cb⟩ := y
    by_cases hle : t ≤ tb
    · exact ⟨t, c, by simp [earliest, hle], Nat.le_refl t⟩
    · exact ⟨tb, cb, by simp [earliest, hle], by omega⟩

theorem earliest_le_right (a b : Option (Nat × Cause)) (t : Nat) (c : Cause)
    (h : b = some (t, c)) : ∃ t2 c2, earliest a b = some (t2, c2) ∧ t2 ≤ t := by
  subst h
  cases a with
  | none => exact ⟨t, c, rfl, Nat.le_refl t⟩
  | some x =>
    obtain ⟨ta, ca⟩ := x
    by_cases hle : ta ≤ t
    · exact ⟨ta, ca, by simp [earliest, hle], hle⟩
    · exact ⟨t, c, by simp [earliest, hle], Nat.le_refl t⟩

/-- A derived signal fires no later than its own deadline. -/
theorem child_fires_by_own_deadline (p : Signal) (d : Nat) (ca : Option Nat) :
    ∃ t c, (Signal.child p d ca).fire = some (t, c) ∧ t ≤ d := by
  obtain ⟨t1, c1, h1, hle1⟩ :=
    earliest_le_left (some (d, Cause.deadlineExceeded))
      (ca.map (fun t => (t, Cause.canceled))) d Cause.deadlineExceeded rfl
  obtain ⟨t2, c2, h2, hle2⟩ := earliest_le_right p.fire _ t1 c1 h1
  exact ⟨t2, c2, h2, Nat.le_trans hle2 hle1⟩

/-- A signal fires no later than its effective deadline. -/
theorem fires_by_deadline (s : Signal) (d : Nat) (h : s.deadline = some d) :
    ∃ t c, s.fire = some (t, c) ∧ t ≤ d := by
  induction s generalizing d with
  | root ca => simp [Signal.deadline] at h
  | child p dl ca ih =>
    obtain ⟨t, c, hf, hle⟩ := child_fires_by_own_deadline p dl ca
    cases hp : p.deadline with
    | none =>
      simp only [Signal.deadline, hp] at h
      cases h
      exact ⟨t, c, hf, hle⟩
    | some dp =>
      simp only [Signal.deadline, hp] at h
      cases h
      obtain ⟨tp, cp, hfp, hlep⟩ := ih dp hp
      obtain ⟨t2, c2, h2, hle2⟩ := earliest_le_left p.fire
        (earliest (some (dl, Cause.deadlineExceeded)) (ca.map (fun t => (t, Cause.canceled))))
        tp cp hfp
      have hf2 : (Signal.child p dl ca).fire = some (t2, c2) := h2
      rw [hf] at hf2
      cases hf2
      exact ⟨t, c, hf, Nat.le_min.mpr ⟨Nat.le_trans hle2 hlep, hle⟩⟩

/-- A signal derived with a timeout from a parent that has already fired has
fired too, with the cause of the parent. -/
theorem WithTimeout_err_of_parent (parent : Signal) (now timeout : Nat) (c : Cause)
    (h : parent.err now = some c) : (WithTimeout parent now timeout).err now = some c := by
  unfold Signal.err at h ⊢
  cases hp : parent.fire with
  | none => simp [hp] at h
  | some x =>
    obtain ⟨t, c2⟩ := x
    simp only [hp] at h
    by_cases hle : t ≤ now
    · simp only [hle, if_true] at h
      cases h
      have hle2 : t ≤ now + timeout := by omega
      simp [WithTimeout, Signal.fire, hp, earliest, hle, hle2]
    · simp [hle] at h

/-! ## Claims on fetchDataFromResponse -/

/-- C1: when `client.Do` returns a response without error and reading the body
returns no error, `fetchDataFromResponse` prints exactly one count, the number of
bytes of the whole body, and returns normally. -/
theorem fetchDataFromResponse_prints_body_size (env : Env) (req : Request) (body : Body)
    (hdo : (clientDo env req).2 = .ok body) (hread : (ReadAll body).2 = none) :
    printedCounts (fetchDataFromResponse env req).trace = [body.size] ∧
      (fetchDataFromResponse env req).outcome = .returned := by
  rw [fetch_of_read_ok (clientDo_ok hdo) hread]
  exact ⟨rfl, rfl⟩

/-- C1 at concrete inputs: a three-byte body prints 3 and the empty body prints 0. -/
theorem fetchDataFromResponse_prints_body_size_witness :
    (printedCounts (fetchDataFromResponse envOk reqBackground).trace = [3] ∧
      (fetchDataFromResponse envOk reqBackground).outcome = .returned) ∧
    (printedCounts (fetchDataFromResponse envEmpty reqBackground).trace = [0] ∧
      (fetchDataFromResponse envEmpty reqBackground).outcome = .returned) :=
  ⟨fetchDataFromResponse_prints_body_size envOk reqBackground ⟨[[137, 80], [78]], none⟩ rfl rfl,
   fetchDataFromResponse_prints_body_size envEmpty reqBackground ⟨[], none⟩ rfl rfl⟩

/-- C2: `fetchDataFromResponse` ends in exactly one of two ways.  It panics with
error `e` if and only if `client.Do` failed with `e` or the body read failed with
`e`, and then nothing is printed; it returns normally if and only if both
succeeded, and then one byte count is printed.  Every panic carries the error
itself: nothing is recovered or replaced. -/
theorem fetchDataFromResponse_outcome (env : Env) (req : Request) :
    (∀ e, (fetchDataFromResponse env req).outcome = .panicked (.err e) ↔
        ((clientDo env req).2 = .error e ∨
          ∃ body, (clientDo env req).2 = .ok body ∧ (ReadAll body).2 = some e)) ∧
    ((fetchDataFromResponse env req).outcome = .returned ↔
        ∃ body, (clientDo env req).2 = .ok body ∧ (ReadAll body).2 = none) ∧
    ((fetchDataFromResponse env req).outcome = .returned ∨
        ∃ e, (fetchDataFromResponse env req).outcome = .panicked (.err e)) ∧
    ((fetchDataFromResponse env req).outcome ≠ .returned →
        printedCounts (fetchDataFromResponse env req).trace = []) ∧
    ((fetchDataFromResponse env req).outcome = .returned →
        ∃ n, printedCounts (fetchDataFromResponse env req).trace = [n]) := by
  rcases fetch_cases env req with ⟨e, hd, hf⟩ | ⟨e, hd, hf⟩ | ⟨body, e, hd, hr, hf⟩ |
    ⟨body, hd, hr, hf⟩
  · rw [hf, hd]
    refine ⟨fun e2 => ?_, ?_, Or.inr ⟨e, rfl⟩, fun _ => rfl, ?_⟩ <;> simp
  · rw [hf, hd]
    refine ⟨fun e2 => ?_, ?_, Or.inr ⟨e, rfl⟩, fun _ => rfl, ?_⟩ <;> simp
  · rw [hf, hd]
    refine ⟨fun e2 => ?_, ?_, Or.inr ⟨e, rfl⟩, fun _ => rfl, ?_⟩ <;>
      simp [ReadAll, hr]
  · rw [hf, hd]
    refine ⟨fun e2 => ?_, ?_, Or.inl rfl, fun h => absurd rfl h, fun _ => ⟨body.size, rfl⟩⟩ <;>
      simp [ReadAll, hr]

/-- C3: a response body that was opened is closed before `fetchDataFromResponse`
exits.  When `client.Do` succeeded the trace opens one body, closes it once, and
the close is the last event, whether the read succeeded or panicked; when
`client.Do` failed no body was opened; in every case no body is live at exit. -/
theorem fetchDataFromResponse_closes_body (env : Env) (req : Request) :
    (∀ body, (clientDo env req).2 = .ok body →
        ∃ mid, (fetchDataFromResponse env req).trace =
            [.doCalled, .roundTrip, .bodyOpened] ++ mid ++ [.bodyClosed] ∧
          Event.bodyOpened ∉ mid ∧ Event.bodyClosed ∉ mid) ∧
    (∀ e, (clientDo env req).2 = .error e →
        Event.bodyOpened ∉ (fetchDataFromResponse env req).trace) ∧
    openBodies (fetchDataFromResponse env req).trace 0 = 0 := by
  rcases fetch_cases env req with ⟨e, hd, hf⟩ | ⟨e, hd, hf⟩ | ⟨body, e, hd, hr, hf⟩ |
    ⟨body, hd, hr, hf⟩
  · rw [hf, hd]
    refine ⟨fun b h => ?_, fun e2 _ => by simp, rfl⟩
    simp at h
  · rw [hf, hd]
    refine ⟨fun b h => ?_, fun e2 _ => by simp, rfl⟩
    simp at h
  · rw [hf, hd]
    refine ⟨fun b _ => ⟨[], rfl, by simp, by simp⟩, fun e2 h => ?_, rfl⟩
    simp at h
  · rw [hf, hd]
    refine ⟨fun b _ => ⟨[.printed body.size], rfl, by simp, by simp⟩, fun e2 h => ?_, rfl⟩
    simp at h

/-! ## Claims on the callers -/

/-- C6: the signal derived with a timeout is released when its creating scope
exits, on every exit path.  In the second gin handler and in `main` the trace
starts by deriving the signal and ends by releasing it, with no other derivation
or release in between, for every environment (normal return and panic alike), so
no derived signal is live at exit. -/
theorem timeout_signal_released (env : Env) (reqCtx : Signal) :
    (∃ mid, (ginHandlerTimeoutContext env reqCtx).trace =
        .ctxCreated :: (mid ++ [.ctxReleased]) ∧
        Event.ctxCreated ∉ mid ∧ Event.ctxReleased ∉ mid) ∧
    (∃ mid, (main env).trace = .ctxCreated :: (mid ++ [.ctxReleased]) ∧
        Event.ctxCreated ∉ mid ∧ Event.ctxReleased ∉ mid) ∧
    liveSignals (ginHandlerTimeoutContext env reqCtx).trace 0 = 0 ∧
    liveSignals (main env).trace 0 = 0 := by
  have h1 := RequestWithTimeoutContext_trace_no_ctx env (some (timeoutContext env reqCtx))
  have h2 := RequestWithTimeoutContext_trace_no_ctx env (some (timeoutContext env Background))
  refine ⟨⟨_, by rw [ginHandlerTimeoutContext_eq], h1.1, h1.2⟩,
    ⟨_, main_trace env, h2.1, h2.2⟩, ?_, ?_⟩
  · rw [ginHandlerTimeoutContext_eq]
    simp only [liveSignals]
    rw [liveSignals_append_of_no_ctx _ _ _ h1.1 h1.2]
    rfl
  · rw [main_trace]
    simp only [liveSignals]
    rw [liveSignals_append_of_no_ctx _ _ _ h2.1 h2.2]
    rfl

/-- C8: a request descriptor that fails construction is rejected before any I/O.
In `RequestWithoutContext`, `RequestWithTimeoutContext` and both gin handlers,
when request construction returns error `e` the function panics with `e` and its
trace holds no `client.Do` call (the timeout handler only derives and releases
its signal). -/
theorem invalid_request_panics_before_do (env : Env) :
    (∀ e, NewRequest env "GET" target = .error e →
        RequestWithoutContext env = ⟨[], .panicked (.err e)⟩) ∧
    (∀ ctx e, NewRequestWithContext env ctx "GET" target = .error e →
        RequestWithTimeoutContext env ctx = ⟨[], .panicked (.err e)⟩) ∧
    (∀ reqCtx e, NewRequestWithContext env (some reqCtx) "GET" target = .error e →
        ginHandlerRequestContext env reqCtx = ⟨[], .panicked (.err e)⟩) ∧
    (∀ reqCtx e,
        NewRequestWithContext env (some (timeoutContext env reqCtx)) "GET" target = .error e →
        ginHandlerTimeoutContext env reqCtx =
          ⟨[.ctxCreated, .ctxReleased], .panicked (.err e)⟩) := by
  refine ⟨fun e h => ?_, fun ctx e h => ?_, fun reqCtx e h => ?_, fun reqCtx e h => ?_⟩
  · simp [RequestWithoutContext, h]
  · simp [RequestWithTimeoutContext, h]
  · simp [ginHandlerRequestContext, h]
  · simp [ginHandlerTimeoutContext, h, Run.defer]

/-- C8 at concrete inputs: a rejected method stops the three functions that pass
a context of their own, and a nil context stops `RequestWithTimeoutContext`. -/
theorem invalid_request_panics_before_do_witness :
    RequestWithoutContext envInvalid = ⟨[], .panicked (.err .invalidMethod)⟩ ∧
    RequestWithTimeoutContext envOk none = ⟨[], .panicked (.err .nilContext)⟩ ∧
    ginHandlerRequestContext envInvalid Background = ⟨[], .panicked (.err .invalidMethod)⟩ ∧
    ginHandlerTimeoutContext envInvalid Background =
      ⟨[.ctxCreated, .ctxReleased], .panicked (.err .invalidMethod)⟩ :=
  ⟨(invalid_request_panics_before_do envInvalid).1 _ rfl,
   (invalid_request_panics_before_do envOk).2.1 none _ rfl,
   (invalid_request_panics_before_do envInvalid).2.2.1 Background _ rfl,
   (invalid_request_panics_before_do envInvalid).2.2.2 Background _ rfl⟩

/-- C10: an absent signal means never cancel.  For every signal that never fires
(such a signal is a root without deadline, namely `context.Background()`),
`RequestWithTimeoutContext` with it runs exactly as `RequestWithoutContext` does
in the same environment: same trace, same printed count or same panic; and both
build the same descriptor: method GET, the fixed target, no body. -/
theorem RequestWithoutContext_eq_never_firing (env : Env) (ctx : Signal)
    (hfire : ctx.fire = none) :
    RequestWithTimeoutContext env (some ctx) = RequestWithoutContext env ∧
    NewRequestWithContext env (some ctx) "GET" target = NewRequest env "GET" target ∧
    (∀ req, NewRequest env "GET" target = .ok req →
        req.method = "GET" ∧ req.url = target ∧ req.hasBody = false ∧ req.ctx = ctx) ∧
    ctx.isRoot = true ∧ ctx.deadline = none := by
  have hctx : ctx = Background := by
    cases ctx with
    | root ca =>
      cases ca with
      | none => rfl
      | some t => simp [Signal.fire] at hfire
    | child p d ca =>
      obtain ⟨t, c, hf, _⟩ := child_fires_by_own_deadline p d ca
      rw [hfire] at hf
      cases hf
  subst hctx
  refine ⟨rfl, rfl, fun req h => ?_, rfl, rfl⟩
  rcases newRequest_cases env (some Background) with ⟨e, h2⟩ | ⟨c, hc, h2⟩
  · rw [NewRequest, h2] at h
    cases h
  · rw [NewRequest, h2] at h
    cases hc
    cases h
    exact ⟨rfl, rfl, rfl, rfl⟩

/-- C10 at a concrete input: with the background signal and a transport that
answers three bytes, both functions print 3. -/
theorem RequestWithoutContext_eq_never_firing_witness :
    Background.fire = none ∧
    RequestWithTimeoutContext envOk (some Background) = RequestWithoutContext envOk ∧
    printedCounts (RequestWithoutContext envOk).trace = [3] :=
  ⟨rfl, (RequestWithoutContext_eq_never_firing envOk Background rfl).1, by decide⟩

/-! ## Claims on signals -/

/-- A fired signal makes `fetchDataFromResponse` panic with its recorded cause
after calling `client.Do` and without contacting the transport. -/
theorem fetch_of_fired (env : Env) (req : Request) (c : Cause)
    (h : req.ctx.err env.now = some c) :
    fetchDataFromResponse env req = ⟨[.doCalled], .panicked (.err (.context c))⟩ := by
  simp [fetchDataFromResponse, clientDo, h]

/-- C4, as the claim states it, fails: a signal whose 100ms deadline elapsed
before the call (derived at time 0, call at 200ms) has already fired, and
`RequestWithTimeoutContext` fails in `client.Do` without contacting the transport,
but with cause deadline exceeded, not cancelled. -/
theorem prefired_deadline_not_cancelled :
    expiredCtx.err envLate.now = some Cause.deadlineExceeded ∧
    RequestWithTimeoutContext envLate (some expiredCtx) =
      ⟨[.doCalled], .panicked (.err (.context .deadlineExceeded))⟩ ∧
    (RequestWithTimeoutContext envLate (some expiredCtx)).outcome ≠
      .panicked (.err (.context .canceled)) := by
  decide

/-- C4 amended: a signal that has fired before the call, with recorded cause `c`,
makes the request fail in `client.Do` with cause `c` (cancelled for an explicit
cancellation, deadline exceeded for an elapsed deadline) and the transport is
never contacted.  This holds for `RequestWithTimeoutContext` and for both gin
handlers; in the timeout handler the derived 100ms child has fired too and
carries the cause of its parent, and is released at exit. -/
theorem fired_signal_fails_without_transport (env : Env) (ctx : Signal) (c : Cause)
    (hfired : ctx.err env.now = some c) (hm : env.validMethod "GET" = true)
    (hu : env.parseURL target = none) :
    RequestWithTimeoutContext env (some ctx) =
      ⟨[.doCalled], .panicked (.err (.context c))⟩ ∧
    ginHandlerRequestContext env ctx = ⟨[.doCalled], .panicked (.err (.context c))⟩ ∧
    (timeoutContext env ctx).err env.now = some c ∧
    ginHandlerTimeoutContext env ctx =
      ⟨[.ctxCreated, .doCalled, .ctxReleased], .panicked (.err (.context c))⟩ := by
  have hchild : (timeoutContext env ctx).err env.now = some c :=
    WithTimeout_err_of_parent ctx env.now (100 * Millisecond) c hfired
  refine ⟨?_, ?_, hchild, ?_⟩
  · rw [RequestWithTimeoutContext, newRequest_ok env ctx hm hu]
    exact fetch_of_fired env _ c hfired
  · rw [ginHandlerRequestContext, newRequest_ok env ctx hm hu]
    exact fetch_of_fired env _ c hfired
  · rw [ginHandlerTimeoutContext, newRequest_ok env _ hm hu]
    simp only []
    rw [fetch_of_fired env _ c hchild]
    rfl

/-- C4 amended at a concrete input: the parent was cancelled at time 5, the call
happens at 200ms; the cause is cancelled in the three functions and the transport
is never contacted. -/
theorem fired_signal_fails_without_transport_witness :
    cancelledCtx.err envLate.now = some Cause.canceled ∧
    RequestWithTimeoutContext envLate (some cancelledCtx) =
      ⟨[.doCalled], .panicked (.err (.context .canceled))⟩ ∧
    ginHandlerRequestContext envLate cancelledCtx =
      ⟨[.doCalled], .panicked (.err (.context .canceled))⟩ ∧
    (timeoutContext envLate cancelledCtx).err envLate.now = some Cause.canceled ∧
    ginHandlerTimeoutContext envLate cancelledCtx =
      ⟨[.ctxCreated, .doCalled, .ctxReleased], .panicked (.err (.context .canceled))⟩ :=
  ⟨rfl, fired_signal_fails_without_transport envLate cancelledCtx Cause.canceled rfl rfl rfl⟩

/-- C5: the signal derived with a timeout has effective deadline
min(parent deadline, now + timeout).  If the parent carries deadline `d1` earlier
than `now + d2` the child deadline is `d1`; if the parent has no deadline it is
`now + d2`; the child fires no later than the deadline of its parent; and the
signal of the timeout handler is this derivation with 100ms. -/
theorem WithTimeout_deadline (parent : Signal) (now d2 : Nat) :
    (WithTimeout parent now d2).deadline =
      some (match parent.deadline with
        | none => now + d2
        | some d1 => min d1 (now + d2)) ∧
    (∀ d1, parent.deadline = some d1 → d1 < now + d2 →
        (WithTimeout parent now d2).deadline = some d1) ∧
    (parent.deadline = none → (WithTimeout parent now d2).deadline = some (now + d2)) ∧
    (∀ d1, parent.deadline = some d1 →
        ∃ t c, (WithTimeout parent now d2).fire = some (t, c) ∧ t ≤ d1) ∧
    (∀ env : Env, timeoutContext env parent = WithTimeout parent env.now (100 * Millisecond)) := by
  have hmin : (WithTimeout parent now d2).deadline =
      some (match parent.deadline with
        | none => now + d2
        | some d1 => min d1 (now + d2)) := by
    cases hp : parent.deadline <;> simp [WithTimeout, Signal.deadline, hp]
  refine ⟨hmin, fun d1 hp hlt => ?_, fun hp => ?_, fun d1 hp => ?_, fun _ => rfl⟩
  · rw [hmin, hp]
    simp only [Option.some.injEq]
    exact Nat.min_eq_left (Nat.le_of_lt hlt)
  · rw [hmin, hp]
  · obtain ⟨t, c, hf, hle⟩ := fires_by_deadline (WithTimeout parent now d2) _ hmin
    rw [hp] at hle
    exact ⟨t, c, hf, Nat.le_trans hle (Nat.min_le_left _ _)⟩

/-- C5 at a concrete input: a parent with deadline 100ms and a child derived at
50ms with 100ms keep deadline 100ms; derived from the background the child has
deadline 150ms. -/
theorem WithTimeout_deadline_witness :
    expiredCtx.deadline = some (100 * Millisecond) ∧
    (WithTimeout expiredCtx (50 * Millisecond) (100 * Millisecond)).deadline =
      some (100 * Millisecond) ∧
    (WithTimeout Background (50 * Millisecond) (100 * Millisecond)).deadline =
      some (150 * Millisecond) :=
  ⟨by decide,
   (WithTimeout_deadline expiredCtx (50 * Millisecond) (100 * Millisecond)).2.1
     (100 * Millisecond) (by decide) (by decide),
   (WithTimeout_deadline Background (50 * Millisecond) (100 * Millisecond)).2.2.1 rfl⟩

/-! ## Claims on the race -/

/-- A request whose signal is going to fire at `t` with cause `c`, before the
transport completes, panics with that cause and prints nothing. -/
theorem raced_request_aborted (env : Env) (tr : Transport) (sig : Signal) (t : Nat)
    (c : Cause) (hm : env.validMethod "GET" = true) (hu : env.parseURL target = none)
    (hf : sig.fire = some (t, c)) (hlt : t < env.now + tr.completion) :
    (RequestWithTimeoutContext (withRace env tr) (some sig)).outcome =
        .panicked (.err (.context c)) ∧
      printedCounts (RequestWithTimeoutContext (withRace env tr) (some sig)).trace = [] := by
  have hreq : NewRequestWithContext (withRace env tr) (some sig) "GET" target =
      .ok ⟨sig, "GET", target, false⟩ := newRequest_ok (withRace env tr) sig hm hu
  rw [RequestWithTimeoutContext, hreq]
  simp only []
  by_cases hpre : t ≤ env.now
  · have herr : (⟨sig, "GET", target, false⟩ : Request).ctx.err (withRace env tr).now =
        some c := by
      show sig.err env.now = some c
      simp [Signal.err, hf, hpre]
    rw [fetch_of_fired (withRace env tr) _ c herr]
    exact ⟨rfl, rfl⟩
  · have herr : sig.err env.now = none := by simp [Signal.err, hf, hpre]
    by_cases hlat : t < env.now + tr.latency
    · have hdo : clientDo (withRace env tr) ⟨sig, "GET", target, false⟩ =
          ([.doCalled, .roundTrip], .error (.context c)) := by
        simp [clientDo, withRace, herr, race, hf, hlat]
      rw [fetch_of_do_error hdo]
      exact ⟨rfl, rfl⟩
    · cases hans : tr.answer with
      | error e =>
        simp only [Transport.completion, hans] at hlt
        exact absurd hlt hlat
      | ok body =>
        simp only [Transport.completion, hans] at hlt
        have hlt2 : t < env.now + tr.latency + tr.readTime := by omega
        have hdo : clientDo (withRace env tr) ⟨sig, "GET", target, false⟩ =
            ([.doCalled, .roundTrip, .bodyOpened],
              .ok ⟨body.chunks, some (.context c)⟩) := by
          simp [clientDo, withRace, herr, race, hf, hlat, hans, hlt2]
        rw [fetch_of_read_error hdo rfl]
        exact ⟨rfl, rfl⟩

/-- The race is over when the signal fires, if that is before the transport
completes. -/
theorem race_end_of_fire (now : Nat) (sig : Signal) (tr : Transport) (t : Nat) (c : Cause)
    (hf : sig.fire = some (t, c)) (hlt : t < now + tr.completion) :
    (race now sig tr).1 = max t now := by
  by_cases hlat : t < now + tr.latency
  · simp [race, hf, hlat]
  · cases hans : tr.answer with
    | error e =>
      simp only [Transport.completion, hans] at hlt
      exact absurd hlt hlat
    | ok body =>
      simp only [Transport.completion, hans] at hlt
      have hlt2 : t < now + tr.latency + tr.readTime := by omega
      have hle : now ≤ t := by omega
      simp [race, hf, hlat, hans, hlt2, Nat.max_eq_left hle]

theorem main_outcome_of_panic (env : Env) (p : PanicValue)
    (h : (RequestWithTimeoutContext env (some (timeoutContext env Background))).outcome =
      .panicked p) :
    (main env).outcome = .panicked p := by
  simp [main, Run.defer, h]

theorem printedCounts_append (xs ys : List Event) :
    printedCounts (xs ++ ys) = printedCounts xs ++ printedCounts ys := by
  induction xs with
  | nil => rfl
  | cons ev xs ih => cases ev <;> simp [printedCounts, ih]

/-- C7, as the claim states it, fails: with the 100ms deadline of the timeout
handler shorter than a 500ms transport, an inbound request context that is
cancelled after 30ms aborts the request with cause cancelled, not deadline
exceeded. -/
theorem deadline_call_cancelled_by_parent :
    100 * Millisecond < slowTransport.completion ∧
    earlyCancelCtx.err envOk.now = none ∧
    (ginHandlerTimeoutContext (withRace envOk slowTransport) earlyCancelCtx).outcome =
      .panicked (.err (.context .canceled)) ∧
    (ginHandlerTimeoutContext (withRace envOk slowTransport) earlyCancelCtx).outcome ≠
      .panicked (.err (.context .deadlineExceeded)) := by
  decide

/-- C7 amended: when the 100ms deadline is shorter than the natural completion
time of the transport and the derived signal is not fired by an explicit
cancellation (its own or an ancestor one), the timeout handler and `main` are
aborted with cause deadline exceeded, neither cancelled nor success (nothing is
printed), and on the logical clock the call is over no later than 100ms after it
began, before the transport would have completed; for `main`, whose parent is the
background, exactly at 100ms. -/
theorem deadline_exceeded_before_transport (env : Env) (parent : Signal) (tr : Transport)
    (hm : env.validMethod "GET" = true) (hu : env.parseURL target = none)
    (hslow : 100 * Millisecond < tr.completion)
    (hcause : ∀ t c, (timeoutContext env parent).fire = some (t, c) →
      c = Cause.deadlineExceeded) :
    (ginHandlerTimeoutContext (withRace env tr) parent).outcome =
      .panicked (.err (.context .deadlineExceeded)) ∧
    printedCounts (ginHandlerTimeoutContext (withRace env tr) parent).trace = [] ∧
    (race env.now (timeoutContext env parent) tr).1 ≤ env.now + 100 * Millisecond ∧
    (race env.now (timeoutContext env parent) tr).1 < env.now + tr.completion ∧
    (main (withRace env tr)).outcome = .panicked (.err (.context .deadlineExceeded)) ∧
    printedCounts (main (withRace env tr)).trace = [] ∧
    (race env.now (timeoutContext env Background) tr).1 = env.now + 100 * Millisecond := by
  obtain ⟨t, c, hf, hle⟩ :=
    child_fires_by_own_deadline parent (env.now + 100 * Millisecond) none
  have hf2 : (timeoutContext env parent).fire = some (t, c) := hf
  have hc : c = Cause.deadlineExceeded := hcause t c hf2
  subst hc
  have hlt : t < env.now + tr.completion := by omega
  have hbg : (timeoutContext env Background).fire =
      some (env.now + 100 * Millisecond, Cause.deadlineExceeded) := rfl
  have hltbg : env.now + 100 * Millisecond < env.now + tr.completion := by omega
  have hr := raced_request_aborted env tr _ t _ hm hu hf2 hlt
  have hrbg := raced_request_aborted env tr _ _ _ hm hu hbg hltbg
  have hend := race_end_of_fire env.now _ tr t _ hf2 hlt
  have hendbg := race_end_of_fire env.now _ tr _ _ hbg hltbg
  refine ⟨?_, ?_, ?_, ?_, ?_, ?_, ?_⟩
  · rw [ginHandlerTimeoutContext_eq]
    exact hr.1
  · rw [ginHandlerTimeoutContext_eq]
    show printedCounts (Event.ctxCreated :: (_ ++ [Event.ctxReleased])) = []
    have h2 := hr.2
    change printedCounts (RequestWithTimeoutContext (withRace env tr)
      (some (timeoutContext (withRace env tr) parent))).trace = [] at h2
    simp [printedCounts, printedCounts_append, h2]
  · rw [hend]
    exact Nat.max_le.mpr ⟨hle, Nat.le_add_right _ _⟩
  · rw [hend]
    exact Nat.max_lt.mpr ⟨hlt, by omega⟩
  · exact main_outcome_of_panic (withRace env tr) _ hrbg.1
  · rw [main_trace]
    have h2 := hrbg.2
    change printedCounts (RequestWithTimeoutContext (withRace env tr)
      (some (timeoutContext (withRace env tr) Background))).trace = [] at h2
    simp [printedCounts, printedCounts_append, h2]
  · rw [hendbg]
    exact Nat.max_eq_left (Nat.le_add_right _ _)

/-- C7 amended at the concrete scenario: a parent without deadline that is never
cancelled, the 100ms child and a 500ms transport end in deadline exceeded at
100ms, in the handler and in `main`. -/
theorem deadline_exceeded_before_transport_witness :
    (ginHandlerTimeoutContext (withRace envOk slowTransport) Background).outcome =
      .panicked (.err (.context .deadlineExceeded)) ∧
    printedCounts (ginHandlerTimeoutContext (withRace envOk slowTransport) Background).trace
      = [] ∧
    (race envOk.now (timeoutContext envOk Background) slowTransport).1 ≤
      envOk.now + 100 * Millisecond ∧
    (race envOk.now (timeoutContext envOk Background) slowTransport).1 <
      envOk.now + slowTransport.completion ∧
    (main (withRace envOk slowTransport)).outcome =
      .panicked (.err (.context .deadlineExceeded)) ∧
    printedCounts (main (withRace envOk slowTransport)).trace = [] ∧
    (race envOk.now (timeoutContext envOk Background) slowTransport).1 =
      envOk.now + 100 * Millisecond :=
  deadline_exceeded_before_transport envOk Background slowTransport rfl rfl (by decide)
    (by
      intro t c h
      have h2 : (some (envOk.now + 100 * Millisecond, Cause.deadlineExceeded) :
          Option (Nat × Cause)) = some (t, c) := h
      cases h2
      rfl)

/-! ## The gin wiring -/

/-- C9 evaluated: `RequestUsingGin` panics on its second registration.  The
first `r.GET("/hello", ...)` succeeds; the second asks for the same method and
path and gin refuses it, so the function exits by panic with an engine that
holds only the handler bound to the inbound request context. -/
theorem RequestUsingGin_second_registration_panics :
    RequestUsingGin =
      (⟨[⟨"GET", "/hello", [.viaRequestContext, .nilHandler]⟩]⟩,
        .panicked .routeConflict) := by
  decide

end ContextPractice
